import Mathlib

/-!
Verification of the pyseekdb client layer: the `Version` class
(`src/pyseekdb/client/version.py`) and the embedding functions
(`pyseekdb/client/embedding_function.py`,
`pyseekdb/tests/test_user_defined_embedding_function.py`).

Strings are modelled as `List Char`; Python `float` values are modelled as
exact rationals `ℚ` (every property proved here — lengths, counts, order,
determinism — is independent of the numeric representation).
-/

namespace PySeekDB

/-! ### Python primitives used by the source

`int(s)` on a `str` strips whitespace at both ends, accepts an optional
sign, then decimal digits with single underscores allowed between digits.
We model the ASCII fragment (Python additionally accepts Unicode digits and
Unicode whitespace; none of the repository's inputs use them). -/

/-- ASCII decimal digit test, `'0'..'9'`. -/
def isAsciiDigit (c : Char) : Bool := 48 ≤ c.toNat && c.toNat ≤ 57

/-- The decimal digit character for `d < 10` (used to model Python `str(int)`). -/
def digitChar : Nat → Char
  | 0 => '0' | 1 => '1' | 2 => '2' | 3 => '3' | 4 => '4'
  | 5 => '5' | 6 => '6' | 7 => '7' | 8 => '8' | 9 => '9'
  | _ => '*'

/-- Numeric value of a decimal digit character. -/
def digitVal (c : Char) : Nat := c.toNat - 48

/-- ASCII whitespace as stripped by Python's `int()` / `str.strip()`:
space, tab, newline, carriage return, vertical tab, form feed. -/
def isPySpace (c : Char) : Bool :=
  c.toNat = 32 || c.toNat = 9 || c.toNat = 10 || c.toNat = 13 ||
    c.toNat = 11 || c.toNat = 12

/-- Strip whitespace from both ends (Python `str.strip()`), ASCII fragment. -/
def pyStrip (l : List Char) : List Char :=
  ((l.dropWhile isPySpace).reverse.dropWhile isPySpace).reverse

/-- Digits after the first one: Python's `digitpart` grammar
`digit (["_"] digit)*`, continued with accumulator `acc`. A `'_'` must be
followed by a digit; it never ends the literal and never repeats. -/
def parseDigitRest (acc : Nat) : List Char → Option Nat
  | [] => some acc
  | c :: rest =>
    if c = '_' then
      match rest with
      | [] => none
      | d :: rest' =>
        if isAsciiDigit d then parseDigitRest (acc * 10 + digitVal d) rest' else none
    else if isAsciiDigit c then parseDigitRest (acc * 10 + digitVal c) rest
    else none

/-- An unsigned decimal literal: at least one digit, underscores between digits. -/
def parseUDec : List Char → Option Nat
  | [] => none
  | c :: rest => if isAsciiDigit c then parseDigitRest (digitVal c) rest else none

/-- Python `s.split('.')`: no collapsing of adjacent separators, the empty
string yields `[""]`. -/
def splitDot : List Char → List (List Char)
  | [] => [[]]
  | c :: cs =>
    if c = '.' then [] :: splitDot cs
    else
      match splitDot cs with
      | p :: ps => (c :: p) :: ps
      | [] => [[c]]

/-- `[f x for x in xs]` where `f` can raise: `none` as soon as one element
fails, otherwise the list of results. -/
def mapOpt (f : α → Option β) : List α → Option (List β)
  | [] => some []
  | x :: xs =>
    match f x, mapOpt f xs with
    | some y, some ys => some (y :: ys)
    | _, _ => none

/-- Decimal rendering of a natural number, with explicit fuel so that the
definition is structural (any `fuel > n`'s number of digits works; we always
call it with fuel `n + 1`). -/
def natToCharsAux : Nat → Nat → List Char
  | 0, _ => []
  | fuel + 1, n =>
    if n < 10 then [digitChar n]
    else natToCharsAux fuel (n / 10) ++ [digitChar (n % 10)]

/-- Decimal rendering of a natural number (Python `str` on a non-negative
`int`). -/
def natToChars (n : Nat) : List Char := natToCharsAux (n + 1) n

/-- Python `str(i)` on `int`. -/
def intToChars (i : Int) : List Char :=
  if i < 0 then '-' :: natToChars i.natAbs else natToChars i.natAbs

/-- Python `int(s)` on a string (ASCII fragment): strip, optional sign, then
decimal digits with underscore separators. `none` models `ValueError`. -/
def pyInt (l : List Char) : Option Int :=
  match pyStrip l with
  | [] => none
  | c :: rest =>
    if c = '+' then (parseUDec rest).map Int.ofNat
    else if c = '-' then (parseUDec rest).map (fun n => -(n : Int))
    else (parseUDec (c :: rest)).map Int.ofNat

/-! ### `Version` (src/pyseekdb/client/version.py)

`Version.__init__` raises `ValueError` at three places; the constructors of
`VersionError` name them (the Python message strings are omitted). -/

/-- The three `ValueError` cases raised by `Version.__init__`. -/
inductive VersionError
  | emptyString
  | badPartCount
  | nonNumericPart
deriving DecidableEq, Repr

/-- A constructed `Version`: `self._parts` after normalization is always a
list of exactly 4 ints, held here as four fields. -/
structure Version where
  major : Int
  minor : Int
  patch : Int
  build : Int
deriving DecidableEq, Repr

/-- `self._parts` as a list, for the list comparisons in the source. -/
def Version.partsList (v : Version) : List Int :=
  [v.major, v.minor, v.patch, v.build]

/-- `Version.__init__`: reject the empty string, split on `'.'`, reject a
part count other than 3 or 4, convert every part with `int(part)`, pad a
3-part version with a trailing 0. The final catch-all is unreachable
(`mapOpt` preserves length). -/
def Version.init (s : List Char) : Except VersionError Version :=
  if s = [] then .error .emptyString
  else
    let parts := splitDot s
    if parts.length = 3 ∨ parts.length = 4 then
      match mapOpt pyInt parts with
      | none => .error .nonNumericPart
      | some [a, b, c] => .ok ⟨a, b, c, 0⟩
      | some [a, b, c, d] => .ok ⟨a, b, c, d⟩
      | some _ => .error .badPartCount
    else .error .badPartCount

/-- `Version.__str__`: `'.'.join(str(p) for p in self._parts)`, written out
over the four parts. -/
def Version.render (v : Version) : List Char :=
  intToChars v.major ++ '.' ::
    (intToChars v.minor ++ '.' :: (intToChars v.patch ++ '.' :: intToChars v.build))

/-- Python `hash(tuple(self._parts))` is a pure function of the 4-tuple;
we model it by the tuple itself. -/
def Version.pyHash (v : Version) : Int × Int × Int × Int :=
  (v.major, v.minor, v.patch, v.build)

/-! ### Comparison operators

Each dunder method first checks `isinstance(other, Version)` and returns
`NotImplemented` for any other operand, then compares `self._parts` against
`other._parts` with Python's list comparison (lexicographic; a strict
prefix is smaller). -/

/-- The right-hand operand of a comparison: a `Version` or any other Python
object (identified only by a tag — its content is never inspected). -/
inductive PyOperand
  | version (v : Version)
  | nonVersion (tag : Nat)
deriving DecidableEq, Repr

/-- Result of a Python rich-comparison method: a `bool` or `NotImplemented`. -/
inductive CmpResult
  | bool (b : Bool)
  | notImplemented
deriving DecidableEq, Repr

/-- Python list `<` on `int` lists: lexicographic, strict prefix is smaller. -/
def pyListLt : List Int → List Int → Bool
  | [], [] => false
  | [], _ :: _ => true
  | _ :: _, [] => false
  | a :: as_, b :: bs => if a < b then true else if b < a then false else pyListLt as_ bs

/-- Python list `<=` on `int` lists. -/
def pyListLe : List Int → List Int → Bool
  | [], _ => true
  | _ :: _, [] => false
  | a :: as_, b :: bs => if a < b then true else if b < a then false else pyListLe as_ bs

/-- `Version.__eq__`: `self._parts == other._parts`. -/
def Version.eqOp (v : Version) (o : PyOperand) : CmpResult :=
  match o with
  | .version w => .bool (v.partsList = w.partsList)
  | .nonVersion _ => .notImplemented

/-- `Version.__lt__`: `self._parts < other._parts`. -/
def Version.ltOp (v : Version) (o : PyOperand) : CmpResult :=
  match o with
  | .version w => .bool (pyListLt v.partsList w.partsList)
  | .nonVersion _ => .notImplemented

/-- `Version.__le__`: `self._parts <= other._parts`. -/
def Version.leOp (v : Version) (o : PyOperand) : CmpResult :=
  match o with
  | .version w => .bool (pyListLe v.partsList w.partsList)
  | .nonVersion _ => .notImplemented

/-- `Version.__gt__`: `self._parts > other._parts` (Python list `>` is `<`
with the operands swapped). -/
def Version.gtOp (v : Version) (o : PyOperand) : CmpResult :=
  match o with
  | .version w => .bool (pyListLt w.partsList v.partsList)
  | .nonVersion _ => .notImplemented

/-- `Version.__ge__`: `self._parts >= other._parts`. -/
def Version.geOp (v : Version) (o : PyOperand) : CmpResult :=
  match o with
  | .version w => .bool (pyListLe w.partsList v.partsList)
  | .nonVersion _ => .notImplemented

/-! ### Specification-side definitions (from the spec's words, for the
refinement claims) -/

/-- Spec: "a non-negative integer" as a string — a non-empty run of decimal
digits. -/
def specNonNegIntChars (p : List Char) : Prop :=
  p ≠ [] ∧ ∀ c ∈ p, isAsciiDigit c

instance (p : List Char) : Decidable (specNonNegIntChars p) := by
  unfold specNonNegIntChars; infer_instance

/-- Spec: construction succeeds exactly on a non-empty string that splits on
`'.'` into 3 or 4 parts, every part a non-negative integer. -/
def specVersionOk (s : List Char) : Prop :=
  s ≠ [] ∧ ((splitDot s).length = 3 ∨ (splitDot s).length = 4) ∧
    ∀ p ∈ splitDot s, specNonNegIntChars p

instance (s : List Char) : Decidable (specVersionOk s) := by
  unfold specVersionOk; infer_instance

/-- Spec: strict lexicographic order on the normalized 4-tuples. -/
def specLexLt (v w : Version) : Prop :=
  v.major < w.major ∨ (v.major = w.major ∧
    (v.minor < w.minor ∨ (v.minor = w.minor ∧
      (v.patch < w.patch ∨ (v.patch = w.patch ∧ v.build < w.build)))))

instance (v w : Version) : Decidable (specLexLt v w) := by
  unfold specLexLt; infer_instance

/-- `Except.isOk` for this development. -/
def isOk : Except VersionError Version → Bool
  | .ok _ => true
  | .error _ => false

instance [DecidableEq ε] [DecidableEq α] : DecidableEq (Except ε α) := fun a b =>
  match a, b with
  | .ok x, .ok y => if h : x = y then .isTrue (by rw [h]) else .isFalse (by simp [h])
  | .ok _, .error _ => .isFalse (by simp)
  | .error _, .ok _ => .isFalse (by simp)
  | .error e, .error f => if h : e = f then .isTrue (by rw [h]) else .isFalse (by simp [h])

/-! ### Embedding functions (pyseekdb/client/embedding_function.py)

Python `float` vectors are modelled with exact rationals; every property
proved below (lengths, counts, order, determinism) is independent of the
numeric representation. -/

/-- `Documents = Union[str, List[str]]`: the input shape of an embedding
function. -/
inductive Documents
  | single (s : List Char)
  | many (l : List (List Char))
deriving DecidableEq, Repr

/-- The sentence-transformers model is an external collaborator (the spec
scopes "concrete embedding-model implementations" out, keeping "only the
interface they must satisfy"): its `encode` produces one vector per input
text, in order, so it is determined by a per-text encoder. -/
structure STModel where
  encodeOne : List Char → List ℚ

/-- `model.encode(list_of_texts)`. -/
def STModel.encode (m : STModel) (l : List (List Char)) : List (List ℚ) :=
  l.map m.encodeOne

/-- The import environment: whether `sentence_transformers` can be imported
and, when it can, what `SentenceTransformer(model_name)` returns. -/
structure STEnv where
  available : Bool
  load : List Char → STModel

/-- The `ImportError` raised when `sentence_transformers` is missing. -/
inductive DepError
  | importError
deriving DecidableEq, Repr

/-- `DefaultEmbeddingFunction` instance state: the constructor stores the
model name and sets `self._model = None`, `self._dimension = None`. -/
structure DefaultEmbeddingFunction where
  model_name : List Char
  mModel : Option STModel
  mDimension : Option Nat

/-- The default `model_name` argument, `"all-MiniLM-L6-v2"`. -/
def defaultModelName : List Char := "all-MiniLM-L6-v2".data

/-- `DefaultEmbeddingFunction.__init__`: no import, no model load. -/
def DefaultEmbeddingFunction.init (name : List Char) : DefaultEmbeddingFunction :=
  ⟨name, none, none⟩

/-- `_ensure_model_loaded`: on first use, import sentence-transformers (or
raise `ImportError`), load the model and probe its dimension by encoding
`["test"]`. Returns the loaded model with the updated state (the Python
method instead leaves it in `self._model`, which is then non-`None`). -/
def DefaultEmbeddingFunction.ensureModelLoaded (env : STEnv)
    (ef : DefaultEmbeddingFunction) :
    Except DepError (DefaultEmbeddingFunction × STModel) :=
  match ef.mModel with
  | some m => .ok (ef, m)
  | none =>
    if env.available then
      let m := env.load ef.model_name
      let testEmbedding := m.encode ["test".data]
      .ok ({ ef with mModel := some m,
                     mDimension := some ((testEmbedding.getD 0 []).length) }, m)
    else .error .importError

/-- The `dimension` property: ensure the model is loaded, then return
`self._dimension`. -/
def DefaultEmbeddingFunction.dimension (env : STEnv)
    (ef : DefaultEmbeddingFunction) :
    Except DepError (DefaultEmbeddingFunction × Option Nat) :=
  (ef.ensureModelLoaded env).map fun p => (p.1, p.1.mDimension)

/-- `DefaultEmbeddingFunction.__call__`: ensure the model is loaded (before
anything else), wrap a single string into a list, return `[]` on empty
input, otherwise `model.encode(input)`. -/
def DefaultEmbeddingFunction.call (env : STEnv) (ef : DefaultEmbeddingFunction)
    (input : Documents) :
    Except DepError (DefaultEmbeddingFunction × List (List ℚ)) :=
  match ef.ensureModelLoaded env with
  | .error e => .error e
  | .ok (ef', m) =>
    let l := match input with | .single s => [s] | .many l => l
    if l.isEmpty then .ok (ef', [])
    else .ok (ef', m.encode l)

/-- Module import: `_default_embedding_function = None`. -/
def initialDefaultEF : Option DefaultEmbeddingFunction := none

/-- `get_default_embedding_function()`: create the shared instance on first
call, return the stored one afterwards; explicit global-state passing. -/
def get_default_embedding_function (g : Option DefaultEmbeddingFunction) :
    DefaultEmbeddingFunction × Option DefaultEmbeddingFunction :=
  match g with
  | none =>
    let ef := DefaultEmbeddingFunction.init defaultModelName
    (ef, some ef)
  | some ef => (ef, some ef)

/-! ### `SimpleHashEmbeddingFunction`
(pyseekdb/tests/test_user_defined_embedding_function.py) -/

/-- `SimpleHashEmbeddingFunction` instance state: the configured dimension. -/
structure SimpleHashEmbeddingFunction where
  mDimension : Nat
deriving DecidableEq, Repr

/-- Value of one hex digit, as in `int(c, 16)`; `hashlib` hex digests
contain only `0-9a-f`, so the 0 fallback is never exercised by the
properties proved here (they depend only on lengths). -/
def hexDigitVal (c : Char) : Nat :=
  if 48 ≤ c.toNat ∧ c.toNat ≤ 57 then c.toNat - 48
  else if 97 ≤ c.toNat ∧ c.toNat ≤ 102 then c.toNat - 87
  else if 65 ≤ c.toNat ∧ c.toNat ≤ 70 then c.toNat - 55
  else 0

/-- `int(hash_hex[i:i+2], 16) / 255.0` over the stepped slices of the
truncated digest; a trailing odd character forms a 1-character slice. -/
def hexPairsVal : List Char → List ℚ
  | c1 :: c2 :: rest =>
    ((16 * hexDigitVal c1 + hexDigitVal c2 : ℚ) / 255) :: hexPairsVal rest
  | [c] => [(hexDigitVal c : ℚ) / 255]
  | [] => []

/-- The `while len(vector) < dim` padding loop, with explicit fuel so the
definition is structural (`dim` iterations always suffice; each appends one
element). `len(vector) % len(vector)` is 0, so a non-empty vector is padded
with its first element, an empty one with `0.0`. -/
def padLoopAux (dim : Nat) : Nat → List ℚ → List ℚ
  | 0, v => v
  | fuel + 1, v =>
    if v.length < dim then
      padLoopAux dim fuel
        (v ++ [if v.isEmpty then 0 else v.getD (v.length % v.length) 0])
    else v

/-- The padding loop, entered with enough fuel. -/
def padVector (dim : Nat) (v : List ℚ) : List ℚ := padLoopAux dim dim v

/-- One document in `SimpleHashEmbeddingFunction.__call__`'s loop body:
MD5 hex digest, hex pairs to floats, pad, truncate to the dimension.
`md5hex` models `hashlib.md5(doc.encode('utf-8')).hexdigest()` (an external
collaborator; its 32-character hex output is an assumption stated where
needed). -/
def SimpleHashEmbeddingFunction.embedOne (md5hex : List Char → List Char)
    (dim : Nat) (doc : List Char) : List ℚ :=
  let hashHex := md5hex doc
  let vector := hexPairsVal (hashHex.take (min hashHex.length (dim * 2)))
  (padVector dim vector).take dim

/-- `SimpleHashEmbeddingFunction.__call__`: wrap a single string, return
`[]` on empty input, else one embedding per document, in order. -/
def SimpleHashEmbeddingFunction.call (md5hex : List Char → List Char)
    (ef : SimpleHashEmbeddingFunction) (input : Documents) : List (List ℚ) :=
  let l := match input with | .single s => [s] | .many l => l
  if l.isEmpty then []
  else l.map (SimpleHashEmbeddingFunction.embedOne md5hex ef.mDimension)

/-! ### Helper lemmas -/

theorem mapOpt_isSome_iff (f : α → Option β) (xs : List α) :
    (mapOpt f xs).isSome ↔ ∀ x ∈ xs, (f x).isSome := by
  induction xs with
  | nil => simp [mapOpt]
  | cons x xs ih =>
    simp only [mapOpt, List.mem_cons]
    cases hf : f x <;> cases hm : mapOpt f xs <;> simp_all

theorem mapOpt_length (f : α → Option β) :
    ∀ xs ys, mapOpt f xs = some ys → ys.length = xs.length := by
  intro xs
  induction xs with
  | nil => intro ys h; simp [mapOpt] at h; simp [← h]
  | cons x xs ih =>
    intro ys h
    simp only [mapOpt] at h
    cases hf : f x <;> rw [hf] at h
    · exact absurd h (by simp)
    · cases hm : mapOpt f xs <;> rw [hm] at h
      · exact absurd h (by simp)
      · cases h; simp [ih _ hm]

theorem mapOpt_append (f : α → Option β) :
    ∀ xs ys as_ bs, mapOpt f xs = some as_ → mapOpt f ys = some bs →
      mapOpt f (xs ++ ys) = some (as_ ++ bs) := by
  intro xs
  induction xs with
  | nil => intro ys as_ bs h1 h2; simp [mapOpt] at h1; simp [← h1, h2]
  | cons x xs ih =>
    intro ys as_ bs h1 h2
    simp only [mapOpt] at h1
    cases hf : f x <;> rw [hf] at h1
    · exact absurd h1 (by simp)
    · cases hm : mapOpt f xs <;> rw [hm] at h1
      · exact absurd h1 (by simp)
      · cases h1
        simp only [List.cons_append, mapOpt, hf]
        rw [show xs.append ys = xs ++ ys from rfl, ih ys _ bs hm h2]

theorem splitDot_ne_nil : ∀ l : List Char, splitDot l ≠ [] := by
  intro l
  cases l with
  | nil => simp [splitDot]
  | cons c cs =>
    simp only [splitDot]
    split
    · simp
    · cases h : splitDot cs <;> simp

theorem splitDot_append_dot :
    ∀ l m : List Char, splitDot (l ++ '.' :: m) = splitDot l ++ splitDot m := by
  intro l m
  induction l with
  | nil => simp [splitDot]
  | cons c cs ih =>
    obtain ⟨p, ps, h⟩ : ∃ p ps, splitDot cs = p :: ps := by
      cases hs : splitDot cs with
      | nil => exact absurd hs (splitDot_ne_nil cs)
      | cons p ps => exact ⟨p, ps, rfl⟩
    by_cases hc : c = '.'
    · subst hc; simp [splitDot, ih]
    · show splitDot (c :: (cs ++ '.' :: m)) = splitDot (c :: cs) ++ splitDot m
      simp only [splitDot, hc, if_false, ih, h]
      simp

theorem splitDot_no_dot :
    ∀ l : List Char, (∀ c ∈ l, c ≠ '.') → splitDot l = [l] := by
  intro l h
  induction l with
  | nil => simp [splitDot]
  | cons c cs ih =>
    have hc : c ≠ '.' := h c (by simp)
    have ihs := ih (fun d hd => h d (by simp [hd]))
    simp [splitDot, hc, ihs]

theorem dropWhile_eq_self_of (p : Char → Bool) (l : List Char)
    (h : ∀ c ∈ l, p c = false) : l.dropWhile p = l := by
  cases l with
  | nil => rfl
  | cons c cs => simp [List.dropWhile, h c (by simp)]

theorem pyStrip_no_space (l : List Char)
    (h : ∀ c ∈ l, isPySpace c = false) : pyStrip l = l := by
  unfold pyStrip
  rw [dropWhile_eq_self_of _ _ h,
      dropWhile_eq_self_of _ _ (fun c hc => h c (List.mem_reverse.mp hc)),
      List.reverse_reverse]

theorem digitChar_isDigit {d : Nat} (h : d < 10) :
    isAsciiDigit (digitChar d) = true := by
  interval_cases d <;> decide

theorem digitVal_digitChar {d : Nat} (h : d < 10) :
    digitVal (digitChar d) = d := by
  interval_cases d <;> decide

theorem digit_char_facts {c : Char} (h : isAsciiDigit c = true) :
    isPySpace c = false ∧ c ≠ '+' ∧ c ≠ '-' ∧ c ≠ '.' ∧ c ≠ '_' := by
  have h' : 48 ≤ c.toNat ∧ c.toNat ≤ 57 := by
    simpa [isAsciiDigit] using h
  refine ⟨?_, ?_, ?_, ?_, ?_⟩
  · simp only [isPySpace, Bool.or_eq_false_iff, decide_eq_false_iff_not]
    omega
  · intro he; rw [he] at h'; exact absurd h' (by decide)
  · intro he; rw [he] at h'; exact absurd h' (by decide)
  · intro he; rw [he] at h'; exact absurd h' (by decide)
  · intro he; rw [he] at h'; exact absurd h' (by decide)

theorem natToCharsAux_spec :
    ∀ fuel n, 0 < fuel → n < 10 ^ fuel →
      natToCharsAux fuel n ≠ [] ∧ (∀ c ∈ natToCharsAux fuel n, isAsciiDigit c) ∧
      (natToCharsAux fuel n).foldl (fun a c => a * 10 + digitVal c) 0 = n := by
  intro fuel
  induction fuel with
  | zero => intro n h; omega
  | succ fuel ih =>
    intro n _ hn
    by_cases h10 : n < 10
    · refine ⟨by simp [natToCharsAux, h10], ?_, ?_⟩
      · intro c hc
        simp [natToCharsAux, h10] at hc
        subst hc; exact digitChar_isDigit h10
      · simp [natToCharsAux, h10, digitVal_digitChar h10]
    · have hdiv : n / 10 < 10 ^ fuel := by
        rw [Nat.div_lt_iff_lt_mul (by norm_num)]
        calc n < 10 ^ (fuel + 1) := hn
          _ = 10 ^ fuel * 10 := by ring
      have hpos : 0 < fuel := by
        by_contra hf
        have hf0 : fuel = 0 := by omega
        rw [hf0] at hdiv
        omega
      obtain ⟨h1, h2, h3⟩ := ih (n / 10) hpos hdiv
      have hmod : n % 10 < 10 := Nat.mod_lt n (by norm_num)
      refine ⟨by simp [natToCharsAux, h10], ?_, ?_⟩
      · intro c hc
        simp [natToCharsAux, h10] at hc
        rcases hc with hc | hc
        · exact h2 c hc
        · subst hc; exact digitChar_isDigit hmod
      · simp only [natToCharsAux, if_neg h10, List.foldl_append, h3,
          List.foldl_cons, List.foldl_nil, digitVal_digitChar hmod]
        omega

theorem natToChars_spec (n : Nat) :
    natToChars n ≠ [] ∧ (∀ c ∈ natToChars n, isAsciiDigit c) ∧
    (natToChars n).foldl (fun a c => a * 10 + digitVal c) 0 = n := by
  have h1 : n < 10 ^ n := Nat.lt_pow_self (by norm_num) n
  have h2 : 10 ^ n ≤ 10 ^ (n + 1) := Nat.pow_le_pow_right (by norm_num) (Nat.le_succ n)
  exact natToCharsAux_spec (n + 1) n (Nat.succ_pos n) (by omega)

theorem parseDigitRest_digits (l : List Char) :
    ∀ acc, (∀ c ∈ l, isAsciiDigit c) →
      parseDigitRest acc l = some (l.foldl (fun a c => a * 10 + digitVal c) acc) := by
  induction l with
  | nil => intro acc _; simp [parseDigitRest]
  | cons c rest ih =>
    intro acc h
    have hc : isAsciiDigit c := h c (by simp)
    have hu : c ≠ '_' := (digit_char_facts hc).2.2.2.2
    rw [parseDigitRest.eq_def]
    simp only [if_neg hu, if_pos hc]
    rw [ih _ (fun d hd => h d (by simp [hd])), List.foldl_cons]

theorem parseUDec_digits (l : List Char) (hne : l ≠ [])
    (h : ∀ c ∈ l, isAsciiDigit c) :
    parseUDec l = some (l.foldl (fun a c => a * 10 + digitVal c) 0) := by
  cases l with
  | nil => exact absurd rfl hne
  | cons c rest =>
    have hc : isAsciiDigit c := h c (by simp)
    simp only [parseUDec, if_pos hc]
    rw [parseDigitRest_digits rest _ (fun d hd => h d (by simp [hd])), List.foldl_cons]
    norm_num

theorem pyInt_natToChars (n : Nat) : pyInt (natToChars n) = some (n : Int) := by
  obtain ⟨hne, hdig, hfold⟩ := natToChars_spec n
  have hstrip : pyStrip (natToChars n) = natToChars n :=
    pyStrip_no_space _ (fun c hc => (digit_char_facts (hdig c hc)).1)
  cases hl : natToChars n with
  | nil => exact absurd hl hne
  | cons c rest =>
    rw [hl] at hstrip hdig hfold
    have hc : isAsciiDigit c := hdig c (by simp)
    obtain ⟨-, hplus, hminus, -, -⟩ := digit_char_facts hc
    simp only [pyInt, hstrip]
    simp only [if_neg hplus, if_neg hminus]
    rw [parseUDec_digits _ (by simp) hdig, hfold]
    simp

theorem pyInt_intToChars (i : Int) : pyInt (intToChars i) = some i := by
  by_cases hi : i < 0
  · obtain ⟨hne, hdig, hfold⟩ := natToChars_spec i.natAbs
    have hstrip : pyStrip ('-' :: natToChars i.natAbs) = '-' :: natToChars i.natAbs := by
      apply pyStrip_no_space
      intro c hc
      rcases List.mem_cons.mp hc with h | h
      · subst h; decide
      · exact (digit_char_facts (hdig c h)).1
    simp only [intToChars, if_pos hi, pyInt, hstrip]
    rw [if_neg (by decide : ¬('-' = '+')), if_pos (by trivial),
      parseUDec_digits _ hne hdig, hfold]
    show some (-(i.natAbs : Int)) = some i
    rw [show -(i.natAbs : Int) = i by omega]
  · simp only [intToChars, if_neg hi]
    rw [pyInt_natToChars]
    congr 1
    omega

theorem version_init_isOk_iff (s : List Char) :
    isOk (Version.init s) = true ↔
      (s ≠ [] ∧ ((splitDot s).length = 3 ∨ (splitDot s).length = 4) ∧
        ∀ p ∈ splitDot s, (pyInt p).isSome) := by
  by_cases hs : s = []
  · subst hs; simp [Version.init, isOk]
  · by_cases hlen : (splitDot s).length = 3 ∨ (splitDot s).length = 4
    · simp only [Version.init, if_neg hs, if_pos hlen]
      cases hm : mapOpt pyInt (splitDot s) with
      | none =>
        have hno : ¬ (mapOpt pyInt (splitDot s)).isSome := by simp [hm]
        rw [mapOpt_isSome_iff] at hno
        simp [isOk, hs, hlen, hno]
      | some ps =>
        have hall : ∀ p ∈ splitDot s, (pyInt p).isSome := by
          rw [← mapOpt_isSome_iff]; simp [hm]
        have hl : ps.length = (splitDot s).length := mapOpt_length _ _ _ hm
        rcases ps with _ | ⟨a, _ | ⟨b, _ | ⟨c, _ | ⟨d, _ | ⟨e, tl⟩⟩⟩⟩⟩ <;>
          simp at hl <;> first
          | (exfalso; omega)
          | (simp [isOk, hs, hlen]; exact hall)
    · simp only [Version.init, if_neg hs, if_neg hlen]
      simp [isOk, hlen]

theorem version_init_three (s : List Char) (v : Version)
    (h3 : (splitDot s).length = 3) (h : Version.init s = .ok v) :
    mapOpt pyInt (splitDot s) = some [v.major, v.minor, v.patch] ∧ v.build = 0 := by
  by_cases hs : s = []
  · subst hs; simp [splitDot] at h3
  · rw [Version.init, if_neg hs, if_pos (Or.inl h3)] at h
    cases hm : mapOpt pyInt (splitDot s) with
    | none => rw [hm] at h; exact absurd h (by simp)
    | some ps =>
      rw [hm] at h
      have hl : ps.length = (splitDot s).length := mapOpt_length _ _ _ hm
      rw [h3] at hl
      rcases ps with _ | ⟨a, _ | ⟨b, _ | ⟨c, _ | ⟨d, tl⟩⟩⟩⟩ <;> simp at hl
      cases h
      exact ⟨rfl, rfl⟩

theorem pyListLt_iff (v w : Version) :
    pyListLt v.partsList w.partsList = true ↔ specLexLt v w := by
  obtain ⟨a, b, c, d⟩ := v
  obtain ⟨e, f, g, h⟩ := w
  simp only [Version.partsList, pyListLt, specLexLt]
  split_ifs <;> simp_all <;> omega

theorem pyListLe_iff (v w : Version) :
    pyListLe v.partsList w.partsList = true ↔ (specLexLt v w ∨ v = w) := by
  obtain ⟨a, b, c, d⟩ := v
  obtain ⟨e, f, g, h⟩ := w
  simp only [Version.partsList, pyListLe, specLexLt, Version.mk.injEq]
  split_ifs <;> simp_all <;> omega

theorem partsList_inj (v w : Version) : v.partsList = w.partsList ↔ v = w := by
  obtain ⟨a, b, c, d⟩ := v
  obtain ⟨e, f, g, h⟩ := w
  simp [Version.partsList]

theorem specLexLt_trichotomy (v w : Version) :
    (specLexLt v w ∧ ¬ v = w ∧ ¬ specLexLt w v) ∨
    (¬ specLexLt v w ∧ v = w ∧ ¬ specLexLt w v) ∨
    (¬ specLexLt v w ∧ ¬ v = w ∧ specLexLt w v) := by
  obtain ⟨a, b, c, d⟩ := v
  obtain ⟨e, f, g, h⟩ := w
  simp only [specLexLt, Version.mk.injEq]
  omega

theorem padLoopAux_length_ge (dim : Nat) :
    ∀ fuel v, dim ≤ v.length + fuel → dim ≤ (padLoopAux dim fuel v).length := by
  intro fuel
  induction fuel with
  | zero => intro v h; simpa [padLoopAux] using h
  | succ fuel ih =>
    intro v h
    have heq : padLoopAux dim (fuel + 1) v =
        if v.length < dim then
          padLoopAux dim fuel
            (v ++ [if v.isEmpty then 0 else v.getD (v.length % v.length) 0])
        else v := rfl
    rw [heq]
    by_cases hv : v.length < dim
    · rw [if_pos hv]
      apply ih
      simp only [List.length_append, List.length_cons, List.length_nil]
      omega
    · rw [if_neg hv]; omega

theorem embedOne_length (md5hex : List Char → List Char) (dim : Nat)
    (doc : List Char) :
    (SimpleHashEmbeddingFunction.embedOne md5hex dim doc).length = dim := by
  have hp := padLoopAux_length_ge dim dim
    (hexPairsVal ((md5hex doc).take (min (md5hex doc).length (dim * 2)))) (by omega)
  simp only [SimpleHashEmbeddingFunction.embedOne, padVector, List.length_take]
  omega

theorem simpleHash_call_eq_map (md5hex : List Char → List Char)
    (ef : SimpleHashEmbeddingFunction) (docs : List (List Char)) :
    SimpleHashEmbeddingFunction.call md5hex ef (.many docs) =
      docs.map (SimpleHashEmbeddingFunction.embedOne md5hex ef.mDimension) := by
  cases docs <;> simp [SimpleHashEmbeddingFunction.call]

theorem ensure_of_some (env : STEnv) (ef : DefaultEmbeddingFunction) (m : STModel)
    (h : ef.mModel = some m) : ef.ensureModelLoaded env = .ok (ef, m) := by
  simp [DefaultEmbeddingFunction.ensureModelLoaded, h]

theorem ensure_fresh_available (env : STEnv) (ef : DefaultEmbeddingFunction)
    (hm : ef.mModel = none) (ha : env.available = true) :
    ef.ensureModelLoaded env = .ok
      ({ ef with
          mModel := some (env.load ef.model_name)
          mDimension := some ((env.load ef.model_name).encodeOne "test".data).length },
        env.load ef.model_name) := by
  simp [DefaultEmbeddingFunction.ensureModelLoaded, hm, ha, STModel.encode]

theorem ensure_fresh_unavailable (env : STEnv) (ef : DefaultEmbeddingFunction)
    (hm : ef.mModel = none) (ha : env.available = false) :
    ef.ensureModelLoaded env = .error .importError := by
  simp [DefaultEmbeddingFunction.ensureModelLoaded, hm, ha]

theorem call_of_ensure_ok (env : STEnv) (ef ef' : DefaultEmbeddingFunction)
    (m : STModel) (h : ef.ensureModelLoaded env = .ok (ef', m)) :
    (∀ docs, ef.call env (.many docs) = .ok (ef', docs.map m.encodeOne)) ∧
    (∀ s, ef.call env (.single s) = .ok (ef', [m.encodeOne s])) := by
  constructor
  · intro docs
    cases docs <;> simp [DefaultEmbeddingFunction.call, h, STModel.encode]
  · intro s
    simp [DefaultEmbeddingFunction.call, h, STModel.encode]

theorem call_of_ensure_error (env : STEnv) (ef : DefaultEmbeddingFunction)
    (e : DepError) (h : ef.ensureModelLoaded env = .error e) (input : Documents) :
    ef.call env input = .error e := by
  simp [DefaultEmbeddingFunction.call, h]

theorem intToChars_no_dot (i : Int) : ∀ c ∈ intToChars i, c ≠ '.' := by
  intro c hc
  unfold intToChars at hc
  split at hc
  · rcases List.mem_cons.mp hc with h | h
    · subst h; decide
    · exact (digit_char_facts ((natToChars_spec i.natAbs).2.1 c h)).2.2.2.1
  · exact (digit_char_facts ((natToChars_spec i.natAbs).2.1 c hc)).2.2.2.1

theorem splitDot_render (v : Version) :
    splitDot v.render =
      [intToChars v.major, intToChars v.minor, intToChars v.patch,
        intToChars v.build] := by
  unfold Version.render
  rw [splitDot_append_dot, splitDot_append_dot, splitDot_append_dot,
      splitDot_no_dot _ (intToChars_no_dot v.major),
      splitDot_no_dot _ (intToChars_no_dot v.minor),
      splitDot_no_dot _ (intToChars_no_dot v.patch),
      splitDot_no_dot _ (intToChars_no_dot v.build)]
  rfl

theorem init_render (v : Version) : Version.init v.render = .ok v := by
  have hsp := splitDot_render v
  have hne : v.render ≠ [] := by simp [Version.render]
  have hmap : mapOpt pyInt (splitDot v.render) =
      some [v.major, v.minor, v.patch, v.build] := by
    rw [hsp]
    simp [mapOpt, pyInt_intToChars]
  simp only [Version.init]
  rw [if_neg hne, if_pos (Or.inr (by rw [hsp]; rfl)), hmap]

/-! ### Claim theorems -/

/-- Claim C1, counterexample: the claim says construction succeeds exactly
when every part is a non-negative integer, but `Version("1.2.-3")`
constructs successfully (Python `int("-3")` succeeds) even though `"-3"` is
not a non-negative integer. -/
theorem C1_version_format_counterexample :
    isOk (Version.init "1.2.-3".data) = true ∧
      ¬ specVersionOk "1.2.-3".data := by
  decide

/-- Claim C1, amended: `Version` construction succeeds exactly when the
string is non-empty, splits on `'.'` into 3 or 4 parts, and every part is
accepted by Python `int()` (which also allows a sign, surrounding
whitespace and underscore separators); otherwise it fails with the
`ValueError` for the empty string, the bad part count, or the non-numeric
part respectively. -/
theorem C1_version_format_amended :
    (∀ s, isOk (Version.init s) = true ↔
      (s ≠ [] ∧ ((splitDot s).length = 3 ∨ (splitDot s).length = 4) ∧
        ∀ p ∈ splitDot s, (pyInt p).isSome)) ∧
    (Version.init [] = .error .emptyString) ∧
    (∀ s, s ≠ [] → ¬((splitDot s).length = 3 ∨ (splitDot s).length = 4) →
      Version.init s = .error .badPartCount) ∧
    (∀ s, ((splitDot s).length = 3 ∨ (splitDot s).length = 4) →
      (∃ p ∈ splitDot s, pyInt p = none) →
      Version.init s = .error .nonNumericPart) := by
  refine ⟨version_init_isOk_iff, rfl, ?_, ?_⟩
  · intro s hs hlen
    simp [Version.init, hs, hlen]
  · intro s hlen hex
    obtain ⟨p, hp, hnone⟩ := hex
    by_cases hs : s = []
    · subst hs; simp [splitDot] at hlen
    · rw [Version.init, if_neg hs, if_pos hlen]
      cases hm : mapOpt pyInt (splitDot s) with
      | none => rfl
      | some ps =>
        exfalso
        have hsome : (pyInt p).isSome := by
          have hall := (mapOpt_isSome_iff pyInt (splitDot s)).mp (by simp [hm])
          exact hall p hp
        simp [hnone] at hsome

/-- Claim C1, witness for the amended theorem at concrete inputs. -/
theorem C1_version_format_amended_witness :
    isOk (Version.init "1.2.3".data) = true ∧
    Version.init "1.2".data = .error .badPartCount ∧
    Version.init "1.2.x".data = .error .nonNumericPart := by
  refine ⟨?_, ?_, ?_⟩
  · exact (C1_version_format_amended.1 _).mpr (by decide)
  · exact C1_version_format_amended.2.2.1 _ (by decide) (by decide)
  · exact C1_version_format_amended.2.2.2 _ (by decide)
      ⟨"x".data, by decide, by decide⟩

/-- Claim C2: the comparison operators implement exactly the lexicographic
total order on the normalized 4-tuples; for every pair exactly one of
`<`, `==`, `>` holds; `Version("1.0.1.0") > Version("1.0.0.1")` and
`Version("1.2.3") < Version("1.2.4")`. -/
theorem C2_version_order_lexicographic :
    (∀ v w : Version,
      (v.ltOp (.version w) = .bool true ↔ specLexLt v w) ∧
      (v.leOp (.version w) = .bool true ↔ (specLexLt v w ∨ v = w)) ∧
      (v.gtOp (.version w) = .bool true ↔ specLexLt w v) ∧
      (v.geOp (.version w) = .bool true ↔ (specLexLt w v ∨ w = v)) ∧
      (v.eqOp (.version w) = .bool true ↔ v = w)) ∧
    (∀ v w : Version,
      (v.ltOp (.version w) = .bool true ∧ v.eqOp (.version w) ≠ .bool true ∧
        v.gtOp (.version w) ≠ .bool true) ∨
      (v.ltOp (.version w) ≠ .bool true ∧ v.eqOp (.version w) = .bool true ∧
        v.gtOp (.version w) ≠ .bool true) ∨
      (v.ltOp (.version w) ≠ .bool true ∧ v.eqOp (.version w) ≠ .bool true ∧
        v.gtOp (.version w) = .bool true)) ∧
    (Version.init "1.0.1.0".data = .ok ⟨1, 0, 1, 0⟩ ∧
      Version.init "1.0.0.1".data = .ok ⟨1, 0, 0, 1⟩ ∧
      Version.gtOp ⟨1, 0, 1, 0⟩ (.version ⟨1, 0, 0, 1⟩) = .bool true) ∧
    (Version.init "1.2.3".data = .ok ⟨1, 2, 3, 0⟩ ∧
      Version.init "1.2.4".data = .ok ⟨1, 2, 4, 0⟩ ∧
      Version.ltOp ⟨1, 2, 3, 0⟩ (.version ⟨1, 2, 4, 0⟩) = .bool true) := by
  have hlt : ∀ v w : Version, v.ltOp (.version w) = .bool true ↔ specLexLt v w := by
    intro v w
    rw [show v.ltOp (.version w) = .bool (pyListLt v.partsList w.partsList) from rfl]
    simp only [CmpResult.bool.injEq]
    exact pyListLt_iff v w
  have heq : ∀ v w : Version, v.eqOp (.version w) = .bool true ↔ v = w := by
    intro v w
    rw [show v.eqOp (.version w) = .bool (decide (v.partsList = w.partsList)) from rfl]
    simp only [CmpResult.bool.injEq, decide_eq_true_eq]
    exact partsList_inj v w
  refine ⟨?_, ?_, ?_, ?_⟩
  · intro v w
    refine ⟨hlt v w, ?_, ?_, ?_, heq v w⟩
    · rw [show v.leOp (.version w) = .bool (pyListLe v.partsList w.partsList) from rfl]
      simp only [CmpResult.bool.injEq]
      exact pyListLe_iff v w
    · rw [show v.gtOp (.version w) = .bool (pyListLt w.partsList v.partsList) from rfl]
      simp only [CmpResult.bool.injEq]
      exact pyListLt_iff w v
    · rw [show v.geOp (.version w) = .bool (pyListLe w.partsList v.partsList) from rfl]
      simp only [CmpResult.bool.injEq]
      exact pyListLe_iff w v
  · intro v w
    have hgt : v.gtOp (.version w) = .bool true ↔ specLexLt w v := by
      rw [show v.gtOp (.version w) = .bool (pyListLt w.partsList v.partsList) from rfl]
      simp only [CmpResult.bool.injEq]
      exact pyListLt_iff w v
    rcases specLexLt_trichotomy v w with ⟨h1, h2, h3⟩ | ⟨h1, h2, h3⟩ | ⟨h1, h2, h3⟩
    · exact Or.inl ⟨(hlt v w).mpr h1, fun hc => h2 ((heq v w).mp hc),
        fun hc => h3 (hgt.mp hc)⟩
    · exact Or.inr (Or.inl ⟨fun hc => h1 ((hlt v w).mp hc), (heq v w).mpr h2,
        fun hc => h3 (hgt.mp hc)⟩)
    · exact Or.inr (Or.inr ⟨fun hc => h1 ((hlt v w).mp hc),
        fun hc => h2 ((heq v w).mp hc), hgt.mpr h3⟩)
  · exact ⟨by decide, by decide, by decide⟩
  · exact ⟨by decide, by decide, by decide⟩

/-- Claim C3: a valid 3-part version equals its `".0"`-padded 4-part form,
the string rendering always emits 4 dot-separated integers (the padded
trailing zero is shown) and re-parses to the same `Version`, and the hash
is consistent with equality. -/
theorem C3_version_padding_render_hash :
    (∀ s v, (splitDot s).length = 3 → Version.init s = .ok v →
      Version.init (s ++ '.' :: ['0']) = .ok v) ∧
    (∀ v : Version,
      splitDot v.render =
        [intToChars v.major, intToChars v.minor, intToChars v.patch,
          intToChars v.build] ∧
      (splitDot v.render).length = 4 ∧
      Version.init v.render = .ok v) ∧
    (∀ v w : Version, v.eqOp (.version w) = .bool true → v.pyHash = w.pyHash) ∧
    (Version.init "1.2.3".data = .ok ⟨1, 2, 3, 0⟩ ∧
      Version.init "1.2.3.0".data = .ok ⟨1, 2, 3, 0⟩ ∧
      Version.render ⟨1, 2, 3, 0⟩ = "1.2.3.0".data) := by
  refine ⟨?_, ?_, ?_, by decide, by decide, by decide⟩
  · intro s v h3 h
    obtain ⟨hmap, hb⟩ := version_init_three s v h3 h
    have happ : ¬(s ++ '.' :: ['0'] = []) := by simp
    have hzero : mapOpt pyInt [['0']] = some [(0 : Int)] := by decide
    have hsplit : splitDot (s ++ '.' :: ['0']) = splitDot s ++ [['0']] := by
      rw [splitDot_append_dot]; rfl
    have hlen4 : (splitDot (s ++ '.' :: ['0'])).length = 4 := by
      rw [hsplit]; simp [h3]
    have hmap4 : mapOpt pyInt (splitDot (s ++ '.' :: ['0'])) =
        some [v.major, v.minor, v.patch, 0] := by
      rw [hsplit, mapOpt_append pyInt _ _ _ _ hmap hzero]
      simp
    rw [Version.init, if_neg happ, if_pos (Or.inr hlen4), hmap4]
    show Except.ok (Version.mk v.major v.minor v.patch 0) = Except.ok v
    rw [← hb]
  · intro v
    exact ⟨splitDot_render v, by rw [splitDot_render v]; rfl, init_render v⟩
  · intro v w h
    rw [show v.eqOp (.version w) = .bool (decide (v.partsList = w.partsList)) from rfl] at h
    simp only [CmpResult.bool.injEq, decide_eq_true_eq] at h
    rw [(partsList_inj v w).mp h]

/-- Claim C3, witness at concrete inputs. -/
theorem C3_version_padding_render_hash_witness :
    Version.init ("1.2.3".data ++ '.' :: ['0']) = .ok ⟨1, 2, 3, 0⟩ ∧
    Version.pyHash ⟨1, 2, 3, 0⟩ = Version.pyHash ⟨1, 2, 3, 0⟩ := by
  constructor
  · exact C3_version_padding_render_hash.1 "1.2.3".data ⟨1, 2, 3, 0⟩
      (by decide) (by decide)
  · exact C3_version_padding_render_hash.2.2.1 ⟨1, 2, 3, 0⟩ ⟨1, 2, 3, 0⟩ (by decide)

/-- Claim C10: every comparison and equality operator returns
`NotImplemented` for a non-`Version` right-hand operand; in particular
equality with a non-`Version` never reports `True` (the model is pure, so
no operand is mutated). -/
theorem C10_non_version_operand :
    ∀ (v : Version) (t : Nat),
      v.eqOp (.nonVersion t) = .notImplemented ∧
      v.ltOp (.nonVersion t) = .notImplemented ∧
      v.leOp (.nonVersion t) = .notImplemented ∧
      v.gtOp (.nonVersion t) = .notImplemented ∧
      v.geOp (.nonVersion t) = .notImplemented ∧
      v.eqOp (.nonVersion t) ≠ .bool true := by
  intro v t
  exact ⟨rfl, rfl, rfl, rfl, rfl, by simp [Version.eqOp]⟩

/-- Claim C4: both shipped embedding functions return `[]` on the empty
list and, on `n` documents, a list of exactly `n` fixed-dimension vectors
in input order. For the model-backed default this holds whenever the model
dependency is available (see C9) and the external model honours its
fixed-dimension contract, stated here as hypotheses. -/
theorem C4_embedding_length_order :
    (∀ (env : STEnv) (ef : DefaultEmbeddingFunction) (d : Nat),
      env.available = true →
      (∀ name s, ((env.load name).encodeOne s).length = d) →
      (∀ m s, ef.mModel = some m → (m.encodeOne s).length = d) →
      (∃ ef' : DefaultEmbeddingFunction, ef.call env (.many []) = .ok (ef', [])) ∧
      (∀ docs, ∃ (ef' : DefaultEmbeddingFunction) (m : STModel),
        ef.call env (.many docs) = .ok (ef', docs.map m.encodeOne) ∧
        (docs.map m.encodeOne).length = docs.length ∧
        ∀ vec ∈ docs.map m.encodeOne, vec.length = d)) ∧
    (∀ (md5hex : List Char → List Char) (ef : SimpleHashEmbeddingFunction),
      SimpleHashEmbeddingFunction.call md5hex ef (.many []) = [] ∧
      ∀ docs,
        SimpleHashEmbeddingFunction.call md5hex ef (.many docs) =
          docs.map (SimpleHashEmbeddingFunction.embedOne md5hex ef.mDimension) ∧
        (SimpleHashEmbeddingFunction.call md5hex ef (.many docs)).length =
          docs.length ∧
        ∀ vec ∈ SimpleHashEmbeddingFunction.call md5hex ef (.many docs),
          vec.length = ef.mDimension) := by
  constructor
  · intro env ef d ha hload hstored
    have hens : ∃ ef' m, ef.ensureModelLoaded env = .ok (ef', m) ∧
        ∀ s, (m.encodeOne s).length = d := by
      cases hm : ef.mModel with
      | some m => exact ⟨ef, m, ensure_of_some env ef m hm, fun s => hstored m s hm⟩
      | none =>
        exact ⟨_, _, ensure_fresh_available env ef hm ha,
          fun s => hload ef.model_name s⟩
    obtain ⟨ef', m, hens, hdim⟩ := hens
    constructor
    · exact ⟨ef', by simpa using (call_of_ensure_ok env ef ef' m hens).1 []⟩
    · intro docs
      refine ⟨ef', m, (call_of_ensure_ok env ef ef' m hens).1 docs, by simp, ?_⟩
      intro vec hv
      obtain ⟨s, hs, rfl⟩ := List.mem_map.mp hv
      exact hdim s
  · intro md5hex ef
    refine ⟨rfl, fun docs => ⟨simpleHash_call_eq_map md5hex ef docs, ?_, ?_⟩⟩
    · rw [simpleHash_call_eq_map md5hex ef docs]; simp
    · intro vec hv
      rw [simpleHash_call_eq_map md5hex ef docs] at hv
      obtain ⟨s, hs, rfl⟩ := List.mem_map.mp hv
      exact embedOne_length md5hex ef.mDimension s

/-- Claim C4, witness with a concrete available environment and model. -/
theorem C4_embedding_length_order_witness :
    (∃ ef', (DefaultEmbeddingFunction.init defaultModelName).call
      ⟨true, fun _ => ⟨fun _ => [0]⟩⟩ (.many []) = .ok (ef', [])) ∧
    SimpleHashEmbeddingFunction.call (fun _ => []) ⟨4⟩ (.many []) = [] := by
  constructor
  · exact (C4_embedding_length_order.1 ⟨true, fun _ => ⟨fun _ => [0]⟩⟩
      (DefaultEmbeddingFunction.init defaultModelName) 1 rfl
      (fun name s => rfl)
      (fun m s h => by simp [DefaultEmbeddingFunction.init] at h)).1
  · exact (C4_embedding_length_order.2 (fun _ => []) ⟨4⟩).1

/-- Claim C5: constructing a `DefaultEmbeddingFunction` stores only the
model name and loads nothing (it cannot fail and does not consult the
dependency environment); with the dependency missing, the first use (call
or `dimension`) raises the dependency `ImportError`; with it available, the
first use loads and caches the model and its probed dimension. -/
theorem C5_default_ef_lazy_loading :
    (∀ name, (DefaultEmbeddingFunction.init name).mModel = none ∧
      (DefaultEmbeddingFunction.init name).mDimension = none ∧
      (DefaultEmbeddingFunction.init name).model_name = name) ∧
    (∀ (env : STEnv) (ef : DefaultEmbeddingFunction),
      ef.mModel = none → env.available = false →
      ef.ensureModelLoaded env = .error .importError ∧
      ef.dimension env = .error .importError ∧
      ∀ input, ef.call env input = .error .importError) ∧
    (∀ (env : STEnv) (ef : DefaultEmbeddingFunction),
      ef.mModel = none → env.available = true →
      ∃ (ef' : DefaultEmbeddingFunction) (m : STModel),
        ef.ensureModelLoaded env = .ok (ef', m) ∧ ef'.mModel = some m ∧
        ef'.mDimension = some (m.encodeOne "test".data).length) := by
  refine ⟨fun name => ⟨rfl, rfl, rfl⟩, ?_, ?_⟩
  · intro env ef hm ha
    have he := ensure_fresh_unavailable env ef hm ha
    exact ⟨he, by simp only [DefaultEmbeddingFunction.dimension, he]; rfl,
      fun input => call_of_ensure_error env ef .importError he input⟩
  · intro env ef hm ha
    exact ⟨_, _, ensure_fresh_available env ef hm ha, rfl, rfl⟩

/-- Claim C5, witness: a fresh instance in an unavailable environment. -/
theorem C5_default_ef_lazy_loading_witness :
    (DefaultEmbeddingFunction.init defaultModelName).call
      ⟨false, fun _ => ⟨fun _ => []⟩⟩ (.many ["a".data]) = .error .importError :=
  (C5_default_ef_lazy_loading.2.1 ⟨false, fun _ => ⟨fun _ => []⟩⟩
    (DefaultEmbeddingFunction.init defaultModelName) rfl rfl).2.2 (.many ["a".data])

/-- Claim C6: the hash-based embedding is deterministic (the model is a
pure function: same input, same output), every output vector has length
exactly the configured dimension whatever the document, and each vector
depends on its document only through the document's MD5 digest. -/
theorem C6_simple_hash_deterministic :
    (∀ (md5hex : List Char → List Char) (ef : SimpleHashEmbeddingFunction)
        (docs : List (List Char)),
      SimpleHashEmbeddingFunction.call md5hex ef (.many docs) =
        SimpleHashEmbeddingFunction.call md5hex ef (.many docs)) ∧
    (∀ (md5hex : List Char → List Char) (ef : SimpleHashEmbeddingFunction)
        (input : Documents),
      ∀ vec ∈ SimpleHashEmbeddingFunction.call md5hex ef input,
        vec.length = ef.mDimension) ∧
    (∀ (md5hex : List Char → List Char) (dim : Nat) (d1 d2 : List Char),
      md5hex d1 = md5hex d2 →
      SimpleHashEmbeddingFunction.embedOne md5hex dim d1 =
        SimpleHashEmbeddingFunction.embedOne md5hex dim d2) := by
  refine ⟨fun _ _ _ => rfl, ?_, ?_⟩
  · intro md5hex ef input vec hv
    cases input with
    | single s =>
      simp [SimpleHashEmbeddingFunction.call] at hv
      subst hv
      exact embedOne_length md5hex ef.mDimension s
    | many docs =>
      rw [simpleHash_call_eq_map md5hex ef docs] at hv
      obtain ⟨s, hs, rfl⟩ := List.mem_map.mp hv
      exact embedOne_length md5hex ef.mDimension s
  · intro md5hex dim d1 d2 h
    simp only [SimpleHashEmbeddingFunction.embedOne, h]

/-- Claim C6, witness: two documents with equal digests embed equally. -/
theorem C6_simple_hash_deterministic_witness :
    SimpleHashEmbeddingFunction.embedOne (fun _ => "00".data) 4 "a".data =
      SimpleHashEmbeddingFunction.embedOne (fun _ => "00".data) 4 "b".data :=
  C6_simple_hash_deterministic.2.2 (fun _ => "00".data) 4 "a".data "b".data rfl

/-- Claim C7: for both shipped embedding functions, invoking on the single
string `s` and on the one-element list `[s]` produce identical results
(hence vectors of identical content and dimension). -/
theorem C7_single_equals_singleton_list :
    (∀ (env : STEnv) (ef : DefaultEmbeddingFunction) (s : List Char),
      ef.call env (.single s) = ef.call env (.many [s])) ∧
    (∀ (md5hex : List Char → List Char) (ef : SimpleHashEmbeddingFunction)
        (s : List Char),
      SimpleHashEmbeddingFunction.call md5hex ef (.single s) =
        SimpleHashEmbeddingFunction.call md5hex ef (.many [s])) := by
  constructor
  · intro env ef s
    cases h : ef.ensureModelLoaded env with
    | error e => simp [DefaultEmbeddingFunction.call, h]
    | ok p => simp [DefaultEmbeddingFunction.call, h]
  · intro md5hex ef s
    rfl

/-- Claim C8: the module-level handle starts as `None` (importing creates
no instance), the first call to `get_default_embedding_function` creates
the shared `DefaultEmbeddingFunction`, and every later call returns that
same stored instance unchanged (idempotence). -/
theorem C8_default_singleton_idempotent :
    initialDefaultEF = none ∧
    get_default_embedding_function none =
      (DefaultEmbeddingFunction.init defaultModelName,
        some (DefaultEmbeddingFunction.init defaultModelName)) ∧
    (∀ g ef g', get_default_embedding_function g = (ef, g') →
      get_default_embedding_function g' = (ef, g')) := by
  refine ⟨rfl, rfl, ?_⟩
  intro g ef g' h
  cases g with
  | none => cases h; rfl
  | some e => cases h; rfl

/-- Claim C8, witness: the second call returns the instance created by the
first. -/
theorem C8_default_singleton_idempotent_witness :
    get_default_embedding_function
      (some (DefaultEmbeddingFunction.init defaultModelName)) =
      (DefaultEmbeddingFunction.init defaultModelName,
        some (DefaultEmbeddingFunction.init defaultModelName)) :=
  C8_default_singleton_idempotent.2.2 none _ _
    C8_default_singleton_idempotent.2.1

/-- Claim C9: `__call__` ensures the model is loaded before checking for
empty input, so with the dependency missing and no model cached, calling on
`[]` raises the dependency `ImportError`; with a model present (cached or
loadable) the call on `[]` returns `[]`. -/
theorem C9_empty_input_needs_dependency :
    (∀ (env : STEnv) (ef : DefaultEmbeddingFunction),
      env.available = false → ef.mModel = none →
      ef.call env (.many []) = .error .importError) ∧
    (∀ (env : STEnv) (ef : DefaultEmbeddingFunction) (m : STModel),
      ef.mModel = some m →
      ef.call env (.many []) = .ok (ef, [])) ∧
    (∀ (env : STEnv) (ef : DefaultEmbeddingFunction),
      env.available = true → ef.mModel = none →
      ∃ ef' : DefaultEmbeddingFunction,
        ef.call env (.many []) = .ok (ef', [])) := by
  refine ⟨?_, ?_, ?_⟩
  · intro env ef ha hm
    exact call_of_ensure_error env ef .importError
      (ensure_fresh_unavailable env ef hm ha) (.many [])
  · intro env ef m hm
    simpa using (call_of_ensure_ok env ef ef m (ensure_of_some env ef m hm)).1 []
  · intro env ef ha hm
    exact ⟨_, by simpa using
      (call_of_ensure_ok env ef _ _ (ensure_fresh_available env ef hm ha)).1 []⟩

/-- Claim C9, witness: the empty list still raises when the dependency is
missing. -/
theorem C9_empty_input_needs_dependency_witness :
    (DefaultEmbeddingFunction.init defaultModelName).call
      ⟨false, fun _ => ⟨fun _ => []⟩⟩ (.many []) = .error .importError :=
  C9_empty_input_needs_dependency.1 ⟨false, fun _ => ⟨fun _ => []⟩⟩
    (DefaultEmbeddingFunction.init defaultModelName) rfl rfl

end PySeekDB
